import Mathlib

/-!
Verification of the derived-metrics utilities of the ubeswap-info dashboard
(`src/contexts/User.tsx` and its utility module).

Modelling conventions:
* JavaScript numeric values are modelled over `ℚ` (exact rational arithmetic).
  Where the source can produce the IEEE special values `NaN` / `±Infinity`
  (division), the result is modelled by the `JSNum` type below, so that the
  `isNaN` / `isFinite` guards of the source can be expressed faithfully.
* GraphQL responses are modelled as explicit input lists; a network call is
  modelled by an oracle function passed as an argument, and the list of
  requested slices is returned so that statements about "requests issued"
  can be made.
* Timestamps, dates, addresses and ids are modelled as `Nat`.
-/

/-- A JavaScript number: either an actual (finite) value, `NaN`, or an
infinity.  Zero is modelled as `+0`. -/
inductive JSNum where
  | num (q : ℚ)
  | nan
  | posInf
  | negInf
deriving DecidableEq

/-- JavaScript division of two finite numbers: `x / 0` is `NaN` (for `x = 0`)
or `±Infinity` (for `x ≠ 0`); otherwise exact division. -/
def jsDiv (a b : ℚ) : JSNum :=
  if b = 0 then
    if a = 0 then JSNum.nan
    else if 0 < a then JSNum.posInf
    else JSNum.negInf
  else JSNum.num (a / b)

/-- JavaScript division where both operands may already be special values
(used for `sharePriceUsd / values[0].sharePriceUsd`). -/
def jsDivN : JSNum → JSNum → JSNum
  | JSNum.nan, _ => JSNum.nan
  | _, JSNum.nan => JSNum.nan
  | JSNum.posInf, JSNum.posInf => JSNum.nan
  | JSNum.posInf, JSNum.negInf => JSNum.nan
  | JSNum.negInf, JSNum.posInf => JSNum.nan
  | JSNum.negInf, JSNum.negInf => JSNum.nan
  | JSNum.posInf, JSNum.num q => if q < 0 then JSNum.negInf else JSNum.posInf
  | JSNum.negInf, JSNum.num q => if q < 0 then JSNum.posInf else JSNum.negInf
  | JSNum.num _, JSNum.posInf => JSNum.num 0
  | JSNum.num _, JSNum.negInf => JSNum.num 0
  | JSNum.num a, JSNum.num b => jsDiv a b

/-- Multiplication of a possibly-special number by a finite constant
(used for the `* 100` scaling of the percent-change helpers). -/
def jsNumMul : JSNum → ℚ → JSNum
  | JSNum.num q, k => JSNum.num (q * k)
  | JSNum.nan, _ => JSNum.nan
  | JSNum.posInf, k => if k = 0 then JSNum.nan else if k < 0 then JSNum.negInf else JSNum.posInf
  | JSNum.negInf, k => if k = 0 then JSNum.nan else if k < 0 then JSNum.posInf else JSNum.negInf

/-- `Number.isFinite`: true exactly on actual numbers. -/
def jsIsFinite : JSNum → Bool
  | JSNum.num _ => true
  | _ => false

/-- `getPercentChange(valueNow, value24HoursAgo)`:
`((now - ago) / ago) * 100`, with a `NaN`/`Infinity` result coerced to `0`.
`undefined` arguments (modelled by `none`) parse as `0` via `?? '0'`. -/
def getPercentChange (valueNow value24HoursAgo : Option ℚ) : ℚ :=
  let n := valueNow.getD 0
  let a := value24HoursAgo.getD 0
  match jsNumMul (jsDiv (n - a) a) 100 with
  | JSNum.num adjustedPercentChange => adjustedPercentChange
  | _ => 0

/-- `get2DayPercentChange(valueNow, value24HoursAgo, value48HoursAgo)`:
returns the pair `[currentChange, adjustedPercentChange]`, where a
`NaN`/`Infinity` adjusted change is coerced to `0`. -/
def get2DayPercentChange (valueNow value24HoursAgo value48HoursAgo : ℚ) : ℚ × ℚ :=
  let currentChange := valueNow - value24HoursAgo
  let previousChange := value24HoursAgo - value48HoursAgo
  match jsNumMul (jsDiv (currentChange - previousChange) previousChange) 100 with
  | JSNum.num adjustedPercentChange => (currentChange, adjustedPercentChange)
  | _ => (currentChange, 0)

/-- C8: `get2DayPercentChange(300, 200, 100)` has `currentChange = 100`,
`previousChange = 100`, and returns the pair `[100, 0]` (the adjusted percent
change `((100 - 100) / 100) * 100` is `0`). -/
theorem get2DayPercentChange_300_200_100 :
    get2DayPercentChange 300 200 100 = (100, 0) := by
  norm_num [get2DayPercentChange, jsDiv, jsNumMul]

/-!
## Paginated query executor (`splitQuery`)

The source loop, over an input `list` and page size `skipCount`:

    while (!allFound) {
      let end = list.length
      if (skip + skipCount < list.length) { end = skip + skipCount }
      const sliced = list.slice(skip, end)
      const result = await localClient.query(...sliced...)
      fetchedData = { ...fetchedData, ...result.data }
      if (Object.keys(result.data).length < skipCount || skip + skipCount > list.length) {
        allFound = true
      } else {
        skip += skipCount
      }
    }

The backend is modelled by an oracle `respond` mapping the requested slice to
the list of entries of `result.data` (so `Object.keys(result.data).length` is
the length of `respond sliced`).  The function returns the full trace of
(requested slice, page response) pairs; merging the pages is modelled
separately.  The loop is written with explicit fuel `list.length + 1`
(for `skipCount = 0` the source loop never terminates; every theorem below
assumes `0 < skipCount`, for which the fuel is proved sufficient). -/

/-- One iteration of the `splitQuery` loop at offset `skip`, with `fuel`
remaining iterations allowed. -/
def splitQueryLoop (respond : List α → List β) (list : List α) (skipCount : Nat) :
    Nat → Nat → List (List α × List β)
  | 0, _ => []
  | fuel + 1, skip =>
    let n := list.length
    let e := if skip + skipCount < n then skip + skipCount else n
    let sliced := (list.drop skip).take (e - skip)
    let result := respond sliced
    if result.length < skipCount ∨ n < skip + skipCount then
      [(sliced, result)]
    else
      (sliced, result) :: splitQueryLoop respond list skipCount fuel (skip + skipCount)

/-- `splitQuery(query, localClient, vars, list, skipCount)`: the trace of all
(slice, page) pairs requested from the backend, in order. -/
def splitQuery (respond : List α → List β) (list : List α) (skipCount : Nat) :
    List (List α × List β) :=
  splitQueryLoop respond list skipCount (list.length + 1) 0

/-- The sequence of slices `splitQuery` requests from the backend. -/
def splitQueryRequests (respond : List α → List β) (list : List α) (skipCount : Nat) :
    List (List α) :=
  (splitQuery respond list skipCount).map Prod.fst

/-- A backend that returns one entry per requested item: every page is full
(the last page holds exactly as many entries as its slice has items). -/
def fullPage (s : List α) : List Unit :=
  s.map fun _ => ()

/-- The slice requested at offset `skip` is `(list.drop skip).take skipCount`,
whichever branch computed the slice end. -/
theorem splitQuery_slice_eq (list : List α) (skipCount skip : Nat) :
    (list.drop skip).take
        ((if skip + skipCount < list.length then skip + skipCount else list.length) - skip)
      = (list.drop skip).take skipCount := by
  by_cases h : skip + skipCount < list.length
  · simp [h, Nat.add_sub_cancel_left]
  · rw [if_neg h]
    rcases Nat.le_total list.length skip with hle | hle
    · simp [Nat.sub_eq_zero_of_le hle, List.drop_eq_nil_of_le hle]
    · have h1 : (list.drop skip).length = list.length - skip := List.length_drop ..
      rw [List.take_of_length_le (by omega), List.take_of_length_le (by omega)]

/-- Number of iterations of the loop when every page is full: one request per
`skipCount`-window, plus the final (short or out-of-range) request. -/
theorem splitQueryLoop_fullPage_length (list : List α) (skipCount : Nat)
    (hp : 0 < skipCount) :
    ∀ fuel skip, (list.length - skip) / skipCount + 1 ≤ fuel →
      (splitQueryLoop fullPage list skipCount fuel skip).length
        = (list.length - skip) / skipCount + 1 := by
  intro fuel
  induction fuel with
  | zero => intro skip h; exact absurd h (Nat.not_succ_le_zero _)
  | succ fuel ih =>
    intro skip hfuel
    rw [splitQueryLoop]
    simp only [splitQuery_slice_eq list skipCount skip, fullPage, List.length_map,
      List.length_take, List.length_drop]
    by_cases hstop : min skipCount (list.length - skip) < skipCount ∨
        list.length < skip + skipCount
    · rw [if_pos hstop]
      have hlt : list.length - skip < skipCount := by omega
      simp [Nat.div_eq_of_lt hlt]
    · rw [if_neg hstop]
      push_neg at hstop
      obtain ⟨h1, h2⟩ := hstop
      have hle : skipCount ≤ list.length - skip := by omega
      have hdiv : (list.length - skip) / skipCount
          = (list.length - skip - skipCount) / skipCount + 1 :=
        Nat.div_eq_sub_div hp hle
      have harith : list.length - (skip + skipCount) = list.length - skip - skipCount := by
        omega
      have hfuel2 : (list.length - (skip + skipCount)) / skipCount + 1 ≤ fuel := by
        rw [harith]; omega
      rw [List.length_cons, ih (skip + skipCount) hfuel2, harith]
      omega

/-- When every page is full, the requested slices, concatenated, are exactly
the input list: every item is requested, and no item twice. -/
theorem splitQueryLoop_fullPage_flatten (list : List α) (skipCount : Nat)
    (hp : 0 < skipCount) :
    ∀ fuel skip, (list.length - skip) / skipCount + 1 ≤ fuel →
      ((splitQueryLoop fullPage list skipCount fuel skip).map Prod.fst).flatten
        = list.drop skip := by
  intro fuel
  induction fuel with
  | zero => intro skip h; exact absurd h (Nat.not_succ_le_zero _)
  | succ fuel ih =>
    intro skip hfuel
    rw [splitQueryLoop]
    simp only [splitQuery_slice_eq list skipCount skip, fullPage, List.length_map,
      List.length_take, List.length_drop]
    by_cases hstop : min skipCount (list.length - skip) < skipCount ∨
        list.length < skip + skipCount
    · rw [if_pos hstop]
      have hlt : list.length - skip < skipCount := by omega
      have hlen : (list.drop skip).length ≤ skipCount := by
        rw [List.length_drop]; omega
      simp [List.take_of_length_le hlen]
    · rw [if_neg hstop]
      push_neg at hstop
      obtain ⟨h1, h2⟩ := hstop
      have hle : skipCount ≤ list.length - skip := by omega
      have hdiv : (list.length - skip) / skipCount
          = (list.length - skip - skipCount) / skipCount + 1 :=
        Nat.div_eq_sub_div hp hle
      have harith : list.length - (skip + skipCount) = list.length - skip - skipCount := by
        omega
      have hfuel2 : (list.length - (skip + skipCount)) / skipCount + 1 ≤ fuel := by
        rw [harith]; omega
      have hdropdrop : list.drop (skip + skipCount) = (list.drop skip).drop skipCount := by
        rw [List.drop_drop, Nat.add_comm]
      rw [List.map_cons, List.flatten_cons, ih (skip + skipCount) hfuel2, hdropdrop,
        List.take_append_drop]

/-- Whatever the backend returns, the requested slices are the successive
disjoint windows of width `skipCount` of the input list (so no list item can
appear in two requested slices). -/
theorem splitQueryLoop_requests_windows (respond : List α → List β) (list : List α)
    (skipCount : Nat) :
    ∀ fuel skip,
      (splitQueryLoop respond list skipCount fuel skip).map Prod.fst
        = (List.range (splitQueryLoop respond list skipCount fuel skip).length).map
            (fun i => (list.drop (skip + i * skipCount)).take skipCount) := by
  intro fuel
  induction fuel with
  | zero => intro skip; simp [splitQueryLoop]
  | succ fuel ih =>
    intro skip
    rw [splitQueryLoop]
    simp only [splitQuery_slice_eq list skipCount skip]
    by_cases hstop : (respond ((list.drop skip).take skipCount)).length < skipCount ∨
        list.length < skip + skipCount
    · rw [if_pos hstop]
      have h1 : List.range 1 = [0] := rfl
      simp [h1]
    · rw [if_neg hstop]
      rw [List.map_cons, List.length_cons, ih (skip + skipCount),
        List.range_succ_eq_map, List.map_cons, List.map_map]
      refine congrArg₂ List.cons (by simp) ?_
      refine List.map_congr_left fun i _ => ?_
      simp only [Function.comp_apply]
      congr 2
      rw [Nat.succ_mul]
      omega

/-- Whatever the backend returns, the number of requests is at most
`list.length / skipCount + 1` (the full-page count). -/
theorem splitQueryLoop_length_le (respond : List α → List β) (list : List α)
    (skipCount : Nat) (hp : 0 < skipCount) :
    ∀ fuel skip,
      (splitQueryLoop respond list skipCount fuel skip).length
        ≤ (list.length - skip) / skipCount + 1 := by
  intro fuel
  induction fuel with
  | zero => intro skip; simp [splitQueryLoop]
  | succ fuel ih =>
    intro skip
    rw [splitQueryLoop]
    simp only [splitQuery_slice_eq list skipCount skip]
    by_cases hstop : (respond ((list.drop skip).take skipCount)).length < skipCount ∨
        list.length < skip + skipCount
    · rw [if_pos hstop]
      simp only [List.length_singleton]
      exact Nat.succ_le_succ (Nat.zero_le _)
    · rw [if_neg hstop]
      push_neg at hstop
      obtain ⟨h1, h2⟩ := hstop
      have hle : skipCount ≤ list.length - skip := by omega
      have hdiv : (list.length - skip) / skipCount
          = (list.length - skip - skipCount) / skipCount + 1 :=
        Nat.div_eq_sub_div hp hle
      have hrec := ih (skip + skipCount)
      have harith : list.length - (skip + skipCount) = list.length - skip - skipCount := by
        omega
      rw [harith] at hrec
      rw [List.length_cons]
      omega

/-- If the backend returns a short page at some window that is not the final
one, the loop stops early: strictly fewer requests than the full-page count. -/
theorem splitQueryLoop_short_page (respond : List α → List β) (list : List α)
    (skipCount : Nat) (hp : 0 < skipCount) :
    ∀ fuel skip,
      (∃ i, skip + i * skipCount + skipCount ≤ list.length ∧
          (respond ((list.drop (skip + i * skipCount)).take skipCount)).length < skipCount) →
      (splitQueryLoop respond list skipCount fuel skip).length
        ≤ (list.length - skip) / skipCount := by
  intro fuel
  induction fuel with
  | zero => intro skip _; simp [splitQueryLoop]
  | succ fuel ih =>
    rintro skip ⟨i, hwin, hshort⟩
    rw [splitQueryLoop]
    simp only [splitQuery_slice_eq list skipCount skip]
    have hwin0 : skip + skipCount ≤ list.length := by
      have : skip + skipCount ≤ skip + i * skipCount + skipCount := by omega
      omega
    have hone : 1 ≤ (list.length - skip) / skipCount := by
      rw [Nat.le_div_iff_mul_le hp]
      omega
    by_cases hstop : (respond ((list.drop skip).take skipCount)).length < skipCount ∨
        list.length < skip + skipCount
    · rw [if_pos hstop]
      simpa using hone
    · rw [if_neg hstop]
      push_neg at hstop
      obtain ⟨h1, h2⟩ := hstop
      cases i with
      | zero =>
        simp only [Nat.zero_mul, Nat.add_zero] at hshort
        omega
      | succ j =>
        have hle : skipCount ≤ list.length - skip := by omega
        have hdiv : (list.length - skip) / skipCount
            = (list.length - skip - skipCount) / skipCount + 1 :=
          Nat.div_eq_sub_div hp hle
        have harg : skip + skipCount + j * skipCount = skip + Nat.succ j * skipCount := by
          rw [Nat.succ_mul]
          omega
        have hrec := ih (skip + skipCount)
          ⟨j, by rw [harg]; exact ⟨hwin, hshort⟩⟩
        have harith : list.length - (skip + skipCount) = list.length - skip - skipCount := by
          omega
        rw [harith] at hrec
        rw [List.length_cons]
        omega

/-- C1 counterexample: with input list `[0, 1]` (length 2), page size 2, and a
backend whose every page is full, `splitQuery` issues 2 requests, not
`ceil(2/2) = 1` — after the full first page it issues one more request for the
empty slice, because the exit test `skip + skipCount > list.length` is strict. -/
theorem splitQuery_count_not_ceil :
    (splitQueryRequests (fullPage : List Nat → List Unit) [0, 1] 2).length
      ≠ (2 + 2 - 1) / 2 := by
  decide

/-- C1 (amended): with page size `p ≥ 1` over a list of length `n`,
`splitQuery` issues exactly `n / p + 1` requests when every returned page is
full — that equals `ceil(n/p)` when `p` does not divide `n`, but is one extra
trailing request when `p` divides `n` (including `n = 0`).  The requested
slices are the successive disjoint width-`p` windows of the list (no item is
requested twice; in the full-page case their concatenation is exactly the
list), and a short page at a non-final window makes the loop stop early
(at most `n / p` requests). -/
theorem splitQuery_request_count (list : List Nat) (skipCount : Nat)
    (respond : List Nat → List Unit) (hp : 0 < skipCount) :
    (splitQueryRequests fullPage list skipCount).length = list.length / skipCount + 1
    ∧ (splitQueryRequests fullPage list skipCount).flatten = list
    ∧ splitQueryRequests respond list skipCount
        = (List.range (splitQueryRequests respond list skipCount).length).map
            (fun i => (list.drop (i * skipCount)).take skipCount)
    ∧ (splitQueryRequests respond list skipCount).length ≤ list.length / skipCount + 1
    ∧ ((∃ i, i * skipCount + skipCount ≤ list.length ∧
          (respond ((list.drop (i * skipCount)).take skipCount)).length < skipCount) →
        (splitQueryRequests respond list skipCount).length ≤ list.length / skipCount) := by
  have hfuel : (list.length - 0) / skipCount + 1 ≤ list.length + 1 := by
    rw [Nat.sub_zero]
    have := Nat.div_le_self list.length skipCount
    omega
  refine ⟨?_, ?_, ?_, ?_, ?_⟩
  · have h := splitQueryLoop_fullPage_length list skipCount hp (list.length + 1) 0 hfuel
    simpa [splitQueryRequests, splitQuery] using h
  · have h := splitQueryLoop_fullPage_flatten list skipCount hp (list.length + 1) 0 hfuel
    simpa [splitQueryRequests, splitQuery] using h
  · have h := splitQueryLoop_requests_windows respond list skipCount (list.length + 1) 0
    simpa [splitQueryRequests, splitQuery] using h
  · have h := splitQueryLoop_length_le respond list skipCount hp (list.length + 1) 0
    simpa [splitQueryRequests, splitQuery] using h
  · rintro ⟨i, hwin, hshort⟩
    have h := splitQueryLoop_short_page respond list skipCount hp (list.length + 1) 0
      ⟨i, by simpa using ⟨hwin, hshort⟩⟩
    simpa [splitQueryRequests, splitQuery] using h

/-- Witness for `splitQuery_request_count` at `list = [0, 1, 2]`, `p = 2`:
`3 / 2 + 1 = 2` requests. -/
theorem splitQuery_request_count_witness :
    (splitQueryRequests (fullPage : List Nat → List Unit) [0, 1, 2] 2).length = 2 := by
  have h := (splitQuery_request_count [0, 1, 2] 2 fullPage (by decide)).1
  simpa using h

/-!
## Block-timestamp resolver (`getBlocksFromTimestamps`)

The source:

    if (timestamps?.length === 0) { return [] }
    const fetchedData = await splitQuery(GET_BLOCKS, blockClient, [], timestamps, skipCount)
    const blocks = []
    for (const t in fetchedData) {
      if (fetchedData[t].length > 0) {
        blocks.push({ timestamp: parseInt(t.split('t')[1]),
                      number: parseInt(fetchedData[t][0]['number']) })
      }
    }

A page response is modelled as a list of (timestamp key, block-number list)
entries; merging pages by object spread is modelled by concatenating the page
entry lists (faithful because each page's keys are derived from its own
disjoint slice of timestamps).  The result carries the request trace in its
first component so "no query issued" is expressible. -/

/-- A resolved block: the input timestamp (kept as a label) and the first
block number the backend returned for it. -/
structure Block where
  timestamp : Nat
  number : Nat
deriving DecidableEq

/-- `getBlocksFromTimestamps(timestamps, skipCount)`: the pair of
(requested slices, resolved blocks). -/
def getBlocksFromTimestamps (respond : List Nat → List (Nat × List Nat))
    (timestamps : List Nat) (skipCount : Nat) :
    List (List Nat) × List Block :=
  if timestamps.length = 0 then ([], [])
  else
    let trace := splitQuery respond timestamps skipCount
    let fetchedData := (trace.map Prod.snd).flatten
    (trace.map Prod.fst,
     fetchedData.foldl
       (fun blocks td =>
         match td.2 with
         | [] => blocks
         | number :: _ => blocks ++ [{ timestamp := td.1, number := number }])
       [])

/-- C9: on the empty timestamp list, `getBlocksFromTimestamps` returns the
empty result immediately and issues no backend query at all (the request
trace is empty), for every backend and page size. -/
theorem getBlocksFromTimestamps_empty (respond : List Nat → List (Nat × List Nat))
    (skipCount : Nat) :
    getBlocksFromTimestamps respond [] skipCount = ([], []) := by
  simp [getBlocksFromTimestamps]

/-!
## Share-value time series (`getShareValueOverTime`)

The source loop over the rows of the batched time-travel query result:

    for (const row in result?.data) {
      const timestamp = row.split('t')[1]
      const data = result.data[row]
      if (timestamp && data) {
        const sharePriceUsd = toFloat(data?.reserveUSD) / toFloat(data?.totalSupply)
        values.push({
          timestamp: parseInt(timestamp), sharePriceUsd, ...,
          roiUsd: values && values[0] ? sharePriceUsd / values[0]['sharePriceUsd'] : 1,
          ... })
      }
    }

A row is modelled by an optional timestamp label (`row.split('t')[1]`, absent
when the key holds no `t`-part) and optional fragment data.  `values` (a
JavaScript array) is always truthy; `values[0]` is truthy exactly when the
array is non-empty, so exactly the first pushed sample takes the `: 1` branch.
The fragment fields not referenced by any claim (reserves, token prices) are
copied through by the source unchanged and omitted here. -/

/-- The backend state used for one share-value sample. -/
structure ShareValueFragmentData where
  reserveUSD : ℚ
  totalSupply : ℚ
deriving DecidableEq

/-- One row of the batched share-value query result. -/
structure ShareRow where
  timestampLabel : Option Nat
  data : Option ShareValueFragmentData
deriving DecidableEq

/-- One sample of the produced series. -/
structure ShareValueSnapshot where
  timestamp : Nat
  sharePriceUsd : JSNum
  totalSupply : ℚ
  reserveUSD : ℚ
  roiUsd : JSNum
deriving DecidableEq

/-- One iteration of the row loop: push a sample when both the timestamp
label and the row data are present (truthy), else skip the row. -/
def shareValueStep (values : List ShareValueSnapshot) (row : ShareRow) :
    List ShareValueSnapshot :=
  match row.timestampLabel, row.data with
  | some ts, some data =>
    let sharePriceUsd := jsDiv data.reserveUSD data.totalSupply
    values ++ [{ timestamp := ts
                 sharePriceUsd := sharePriceUsd
                 totalSupply := data.totalSupply
                 reserveUSD := data.reserveUSD
                 roiUsd :=
                   match values.head? with
                   | some v0 => jsDivN sharePriceUsd v0.sharePriceUsd
                   | none => JSNum.num 1 }]
  | _, _ => values

/-- `getShareValueOverTime`: builds the chronological sample list. -/
def getShareValueOverTime (rows : List ShareRow) : List ShareValueSnapshot :=
  rows.foldl shareValueStep []

/-- The sample pushed for a row with timestamp `ts` and fragment `data`,
given the samples accumulated so far. -/
def shareValuePush (values : List ShareValueSnapshot) (ts : Nat)
    (data : ShareValueFragmentData) : ShareValueSnapshot :=
  { timestamp := ts
    sharePriceUsd := jsDiv data.reserveUSD data.totalSupply
    totalSupply := data.totalSupply
    reserveUSD := data.reserveUSD
    roiUsd :=
      match values.head? with
      | some v0 => jsDivN (jsDiv data.reserveUSD data.totalSupply) v0.sharePriceUsd
      | none => JSNum.num 1 }

theorem shareValueStep_eq (values : List ShareValueSnapshot) (row : ShareRow) :
    shareValueStep values row
      = match row.timestampLabel, row.data with
        | some ts, some data => values ++ [shareValuePush values ts data]
        | _, _ => values := rfl

/-- The series invariant: the first sample's ROI is `1`, every later sample's
ROI is its share price divided by the first sample's, and every sample's
share price is its `reserveUSD / totalSupply`.  Preserved by one loop step. -/
theorem shareValueStep_inv (values : List ShareValueSnapshot) (row : ShareRow)
    (h1 : ∀ v0, values[0]? = some v0 → v0.roiUsd = JSNum.num 1)
    (h2 : ∀ i vi v0, values[0]? = some v0 → values[i]? = some vi → 0 < i →
      vi.roiUsd = jsDivN vi.sharePriceUsd v0.sharePriceUsd)
    (h3 : ∀ v ∈ values, v.sharePriceUsd = jsDiv v.reserveUSD v.totalSupply) :
    (∀ v0, (shareValueStep values row)[0]? = some v0 → v0.roiUsd = JSNum.num 1)
    ∧ (∀ i vi v0, (shareValueStep values row)[0]? = some v0 →
        (shareValueStep values row)[i]? = some vi → 0 < i →
        vi.roiUsd = jsDivN vi.sharePriceUsd v0.sharePriceUsd)
    ∧ (∀ v ∈ shareValueStep values row,
        v.sharePriceUsd = jsDiv v.reserveUSD v.totalSupply) := by
  rcases hrow : row.timestampLabel with _ | ts
  · rw [shareValueStep_eq, hrow]
    exact ⟨h1, h2, h3⟩
  · rcases hdat : row.data with _ | data
    · rw [shareValueStep_eq, hrow, hdat]
      exact ⟨h1, h2, h3⟩
    · rw [shareValueStep_eq, hrow, hdat]
      refine ⟨?_, ?_, ?_⟩
      · intro v0 h0
        cases values with
        | nil =>
          simp only [List.nil_append, List.getElem?_cons_zero, Option.some_inj] at h0
          subst h0
          simp [shareValuePush]
        | cons w tl =>
          rw [List.getElem?_append, if_pos (by simp)] at h0
          exact h1 v0 h0
      · intro i vi v0 h0 hi hipos
        by_cases hlen : i < values.length
        · have hvs_pos : 0 < values.length := by omega
          have h0v : values[0]? = some v0 := by
            rw [List.getElem?_append, if_pos hvs_pos] at h0
            exact h0
          have hiv : values[i]? = some vi := by
            rw [List.getElem?_append, if_pos hlen] at hi
            exact hi
          exact h2 i vi v0 h0v hiv hipos
        · by_cases heq : i = values.length
          · subst heq
            have hvs_pos : 0 < values.length := by omega
            have h0v : values[0]? = some v0 := by
              rw [List.getElem?_append, if_pos hvs_pos] at h0
              exact h0
            have hh : values.head? = some v0 := by
              rw [List.head?_eq_getElem?]
              exact h0v
            rw [List.getElem?_append, if_neg (by omega)] at hi
            simp only [Nat.sub_self, List.getElem?_cons_zero, Option.some_inj] at hi
            subst hi
            simp [shareValuePush, hh]
          · have hnone : (values ++ [shareValuePush values ts data])[i]? = none := by
              apply List.getElem?_eq_none
              simp only [List.length_append, List.length_singleton]
              omega
            rw [hnone] at hi
            exact absurd hi (by simp)
      · intro w hw
        rcases List.mem_append.mp hw with hw | hw
        · exact h3 w hw
        · rw [List.mem_singleton] at hw
          subst hw
          simp [shareValuePush]

/-- The invariant holds for any fold of `shareValueStep` from an accumulator
satisfying it. -/
theorem shareValueFold_inv (rows : List ShareRow) :
    ∀ values : List ShareValueSnapshot,
      (∀ v0, values[0]? = some v0 → v0.roiUsd = JSNum.num 1) →
      (∀ i vi v0, values[0]? = some v0 → values[i]? = some vi → 0 < i →
        vi.roiUsd = jsDivN vi.sharePriceUsd v0.sharePriceUsd) →
      (∀ v ∈ values, v.sharePriceUsd = jsDiv v.reserveUSD v.totalSupply) →
      (∀ v0, (rows.foldl shareValueStep values)[0]? = some v0 →
        v0.roiUsd = JSNum.num 1)
      ∧ (∀ i vi v0, (rows.foldl shareValueStep values)[0]? = some v0 →
          (rows.foldl shareValueStep values)[i]? = some vi → 0 < i →
          vi.roiUsd = jsDivN vi.sharePriceUsd v0.sharePriceUsd)
      ∧ (∀ v ∈ rows.foldl shareValueStep values,
          v.sharePriceUsd = jsDiv v.reserveUSD v.totalSupply) := by
  induction rows with
  | nil => intro values h1 h2 h3; exact ⟨h1, h2, h3⟩
  | cons row rows ih =>
    intro values h1 h2 h3
    obtain ⟨g1, g2, g3⟩ := shareValueStep_inv values row h1 h2 h3
    exact ih (shareValueStep values row) g1 g2 g3

/-- C3: in every series produced by `getShareValueOverTime`, the first
sample's `roiUsd` is exactly `1`, every later sample's `roiUsd` is its
`sharePriceUsd` divided (with JavaScript semantics) by the first sample's
`sharePriceUsd`, and every sample's `sharePriceUsd` is its own
`reserveUSD / totalSupply`. -/
theorem getShareValueOverTime_roi (rows : List ShareRow) :
    (∀ v0, (getShareValueOverTime rows)[0]? = some v0 → v0.roiUsd = JSNum.num 1)
    ∧ (∀ i vi v0, (getShareValueOverTime rows)[0]? = some v0 →
        (getShareValueOverTime rows)[i]? = some vi → 0 < i →
        vi.roiUsd = jsDivN vi.sharePriceUsd v0.sharePriceUsd)
    ∧ (∀ v ∈ getShareValueOverTime rows,
        v.sharePriceUsd = jsDiv v.reserveUSD v.totalSupply) := by
  have h := shareValueFold_inv rows [] (by simp) (by simp) (by simp)
  simpa [getShareValueOverTime] using h

/-- Concrete two-sample query result used as witness input for the
share-value series invariant. -/
def c3Rows : List ShareRow :=
  [⟨some 1, some ⟨10, 2⟩⟩, ⟨some 2, some ⟨20, 2⟩⟩]

theorem c3Rows_series :
    getShareValueOverTime c3Rows
      = [⟨1, JSNum.num 5, 2, 10, JSNum.num 1⟩, ⟨2, JSNum.num 10, 2, 20, JSNum.num 2⟩] := by
  norm_num [getShareValueOverTime, shareValueStep, c3Rows, jsDiv, jsDivN]

/-- Witness for `getShareValueOverTime_roi`: on `c3Rows` the second sample's
ROI is its share price (10 USD) divided by the first sample's (5 USD). -/
theorem getShareValueOverTime_roi_witness :
    (⟨2, JSNum.num 10, 2, 20, JSNum.num 2⟩ : ShareValueSnapshot).roiUsd
      = jsDivN (JSNum.num 10) (JSNum.num 5) := by
  have h := (getShareValueOverTime_roi c3Rows).2.1 1
    ⟨2, JSNum.num 10, 2, 20, JSNum.num 2⟩ ⟨1, JSNum.num 5, 2, 10, JSNum.num 1⟩
    (by rw [c3Rows_series]; rfl) (by rw [c3Rows_series]; rfl) (by norm_num)
  simpa using h

/-- Any division with a zero denominator produces a special value. -/
theorem jsDiv_zero_den (x : ℚ) :
    jsDiv x 0 = JSNum.nan ∨ jsDiv x 0 = JSNum.posInf ∨ jsDiv x 0 = JSNum.negInf := by
  unfold jsDiv
  rw [if_pos rfl]
  split_ifs <;> simp

/-- C7 (amended): the percent-change helpers guard division by zero —
`getPercentChange(110, 100) = 10`, `getPercentChange(100, 0) = 0`, every
division by a zero prior value is coerced to `0`, and
`get2DayPercentChange` likewise returns `0` for the adjusted change when the
previous-period change is `0`. -/
theorem getPercentChange_guarded :
    getPercentChange (some 110) (some 100) = 10
    ∧ getPercentChange (some 100) (some 0) = 0
    ∧ (∀ v : Option ℚ, getPercentChange v (some 0) = 0)
    ∧ (∀ a b c : ℚ, b - c = 0 → (get2DayPercentChange a b c).2 = 0) := by
  refine ⟨?_, ?_, ?_, ?_⟩
  · norm_num [getPercentChange, jsDiv, jsNumMul]
  · norm_num [getPercentChange, jsDiv, jsNumMul]
  · intro v
    simp only [getPercentChange, Option.getD_some, sub_zero]
    rcases jsDiv_zero_den (v.getD 0) with h | h | h <;> rw [h] <;> norm_num [jsNumMul]
  · intro a b c h
    simp only [get2DayPercentChange, h, sub_zero]
    rcases jsDiv_zero_den (a - b) with h' | h' | h' <;> rw [h'] <;> norm_num [jsNumMul]

/-- Witness for `getPercentChange_guarded`: the `get2DayPercentChange` guard
at `(5, 3, 3)`. -/
theorem getPercentChange_guarded_witness :
    (get2DayPercentChange 5 3 3).2 = 0 :=
  getPercentChange_guarded.2.2.2 5 3 3 (by norm_num)

/-- Rows whose first valid sample has `sharePriceUsd = 0`
(`reserveUSD = 0`, `totalSupply = 100`), followed by a sample with share
price `5`. -/
def c7Rows : List ShareRow :=
  [⟨some 1, some ⟨0, 100⟩⟩, ⟨some 2, some ⟨50, 10⟩⟩]

/-- C7 counterexample: the `roiUsd` computation of `getShareValueOverTime` is
*not* guarded — when the first sample's share price is `0`, the second
sample's ROI is the division `5 / 0`, i.e. `Infinity`, not a finite fallback. -/
theorem getShareValueOverTime_roi_infinite :
    (getShareValueOverTime c7Rows).map ShareValueSnapshot.roiUsd
        = [JSNum.num 1, JSNum.posInf]
    ∧ jsIsFinite JSNum.posInf = false := by
  constructor
  · norm_num [getShareValueOverTime, shareValueStep, c7Rows, jsDiv, jsDivN]
  · rfl

/-!
## Daily liquidity aggregator (`useUserLiquidityChart`)

Embedding of the `fetchData` body of `useUserLiquidityChart` (the enclosing
hook only runs it when `history` is non-empty and `startDateTimestamp` is
set).  `ownershipPerPair` is a JavaScript object keyed by pair id; it is
modelled as an association list in insertion order.  The snapshot sort
comparator `(a, b) => a.timestamp > b.timestamp ? 1 : -1` sorts ascending by
timestamp; it is modelled by an insertion sort with the same order.  The
`parseFloat` arithmetic of the per-day USD sum is modelled exactly over `ℚ`. -/

/-- A user's liquidity-position snapshot. -/
structure Snapshot where
  timestamp : Nat
  pairId : Nat
  liquidityTokenBalance : ℚ
deriving DecidableEq

/-- One pair-day aggregate record from `PAIR_DAY_DATA_BULK`. -/
structure DayData where
  pairAddress : Nat
  date : Nat
  totalSupply : ℚ
  reserveUSD : ℚ
deriving DecidableEq

/-- One `ownershipPerPair` entry. -/
structure Ownership where
  lpTokenBalance : ℚ
  timestamp : Nat
deriving DecidableEq

/-- One emitted chart entry. -/
structure ChartEntry where
  date : Nat
  valueUSD : ℚ
deriving DecidableEq

/-- Ascending-by-timestamp insertion. -/
def insertByTimestamp (s : Snapshot) : List Snapshot → List Snapshot
  | [] => [s]
  | t :: ts =>
    if s.timestamp ≤ t.timestamp then s :: t :: ts else t :: insertByTimestamp s ts

/-- `history.slice().sort((a, b) => a.timestamp > b.timestamp ? 1 : -1)`. -/
def sortByTimestamp (l : List Snapshot) : List Snapshot :=
  l.foldr insertByTimestamp []

/-- The iteration start day bucket:

    let dayIndex = startDateTimestamp ? Math.floor(startDateTimestamp / 86400) : 0
    if ((sortedPositions[0].timestamp ?? 0) > dayIndex) {
      dayIndex = parseInt((parseInt(sortedPositions[0].timestamp) / 86400).toString())
    }

(for `startDateTimestamp = 0`, falsy, the `: 0` branch coincides with
`0 / 86400`).  Note that the comparison mixes a raw timestamp in seconds with
a day index. -/
def startDayIndex (startDateTimestamp : Nat) (history : List Snapshot) : Nat :=
  let dayIndex := startDateTimestamp / 86400
  match (sortByTimestamp history).head? with
  | some s0 => if s0.timestamp > dayIndex then s0.timestamp / 86400 else dayIndex
  | none => dayIndex

/-- `dayTimestamps`: one bucket start per day from the start index up to (and
excluding) the current day index `floor(now / 86400)`. -/
def dayTimestampsOf (now startDateTimestamp : Nat) (history : List Snapshot) : List Nat :=
  let dayIndex := startDayIndex startDateTimestamp history
  let currentDayIndex := now / 86400
  (List.range (currentDayIndex - dayIndex)).map (fun i => (dayIndex + i) * 86400)

/-- `ownershipPerPair[pairId]` (object property lookup). -/
def ownLookup (m : List (Nat × Ownership)) (p : Nat) : Option Ownership :=
  (m.find? (fun kv => kv.1 == p)).map Prod.snd

/-- In-place update of an existing key of `ownershipPerPair`. -/
def ownSet (m : List (Nat × Ownership)) (p : Nat) (o : Ownership) :
    List (Nat × Ownership) :=
  m.map (fun kv => if kv.1 = p then (kv.1, o) else kv)

/-- The per-snapshot ownership update:

    if (!ownershipPerPair[position.pair.id]) {
      ownershipPerPair[position.pair.id] = { lpTokenBalance: ..., timestamp: ... }
    }
    if (ownershipPerPair[position.pair.id]
        && ownershipPerPair[position.pair.id].timestamp < position.timestamp) {
      ownershipPerPair[position.pair.id] = { lpTokenBalance: ..., timestamp: ... }
    }

A new key is appended (JavaScript object insertion order); an existing key is
overwritten in place when the snapshot's timestamp is strictly larger. -/
def updateOwnership (m : List (Nat × Ownership)) (s : Snapshot) :
    List (Nat × Ownership) :=
  let m1 :=
    match ownLookup m s.pairId with
    | none => m ++ [(s.pairId, ⟨s.liquidityTokenBalance, s.timestamp⟩)]
    | some _ => m
  match ownLookup m1 s.pairId with
  | some o =>
    if o.timestamp < s.timestamp then
      ownSet m1 s.pairId ⟨s.liquidityTokenBalance, s.timestamp⟩
    else m1
  | none => m1

/-- The snapshots relevant to one day bucket:
`snapshot.timestamp < dayTimestamp + 86400 && snapshot.timestamp > dayTimestamp`
(both bounds strict, in `history` order). -/
def relevantOf (history : List Snapshot) (dayTimestamp : Nat) : List Snapshot :=
  history.filter
    (fun s => decide (s.timestamp < dayTimestamp + 86400 ∧ s.timestamp > dayTimestamp))

/-- The ownership map after processing one day bucket's snapshots. -/
def processDayOwnership (history : List Snapshot) (ownership : List (Nat × Ownership))
    (dayTimestamp : Nat) : List (Nat × Ownership) :=
  (relevantOf history dayTimestamp).foldl updateOwnership ownership

/-- The scan step for the "most recent" pair-day record:

    if (dayData.date < dayTimestamp && dayData.date > mostRecent.date) {
      mostRecent = dayData
    }
-/
def mostRecentStep (dayTimestamp : Nat) (mostRecent dayData : DayData) : DayData :=
  if dayData.date < dayTimestamp ∧ dayData.date > mostRecent.date then dayData
  else mostRecent

/-- The "most recent reference to pair liquidity data" for one pair:

    let mostRecent = dayDatasForThisPair[0]
    for (...) { ...mostRecentStep... }

`none` models the `undefined` seed when the pair has no records at all. -/
def mostRecentDayData (dayDatasForThisPair : List DayData) (dayTimestamp : Nat) :
    Option DayData :=
  match dayDatasForThisPair with
  | [] => none
  | first :: _ => some (dayDatasForThisPair.foldl (mostRecentStep dayTimestamp) first)

/-- One step of the `dailyUSD` reduction: an `undefined` record contributes
nothing; otherwise `(lpTokenBalance / totalSupply) * reserveUSD` is added
(with the ownership re-looked-up by the record's pair address). -/
def dailyUSDStep (ownership : List (Nat × Ownership)) (totalUSD : ℚ) :
    Option DayData → ℚ
  | some dayData =>
    totalUSD +
      (match ownLookup ownership dayData.pairAddress with
       | some o => o.lpTokenBalance / dayData.totalSupply * dayData.reserveUSD
       | none => 0)
  | none => totalUSD

/-- The summed USD value of one day bucket: map every owned pair to its
"most recent" record, then reduce. -/
def processDayUSD (pairDayDatas : List DayData) (ownership : List (Nat × Ownership))
    (dayTimestamp : Nat) : ℚ :=
  let relavantDayDatas := ownership.map (fun kv =>
    mostRecentDayData (pairDayDatas.filter (fun d => decide (d.pairAddress = kv.1)))
      dayTimestamp)
  relavantDayDatas.foldl (dailyUSDStep ownership) 0

/-- One iteration of the day loop: update the ownership map with the bucket's
snapshots, then emit `{date, valueUSD}` for the bucket. -/
def chartDayStep (history : List Snapshot) (pairDayDatas : List DayData)
    (acc : List (Nat × Ownership) × List ChartEntry) (dayTimestamp : Nat) :
    List (Nat × Ownership) × List ChartEntry :=
  let ownership := processDayOwnership history acc.1 dayTimestamp
  (ownership,
   acc.2 ++ [{ date := dayTimestamp
               valueUSD := processDayUSD pairDayDatas ownership dayTimestamp }])

/-- The full day loop of `useUserLiquidityChart`'s `fetchData`: the emitted
`{date, valueUSD}` series. -/
def userLiquidityChart (now startDateTimestamp : Nat) (history : List Snapshot)
    (pairDayDatas : List DayData) : List ChartEntry :=
  ((dayTimestampsOf now startDateTimestamp history).foldl
    (chartDayStep history pairDayDatas)
    (([] : List (Nat × Ownership)), ([] : List ChartEntry))).2

/-- C2 (divergence of the code from its own documentation): the function's
doc comment says the series starts at
"min(first position timestamp, beginning of time window)", but with window
start `86400` (day 1) and a single snapshot at `t = 432000` (day 5) the
computed start bucket is day 5 — the raw timestamp `432000` is compared with
the day index `1` and the start is moved *later*, not clamped downward. -/
theorem startDayIndex_moves_start_later :
    startDayIndex 86400 [⟨432000, 1, 10⟩] = 5
    ∧ 86400 / 86400 < startDayIndex 86400 [⟨432000, 1, 10⟩] := by
  constructor <;> decide

/-- The dates of the emitted chart entries are exactly the day-bucket starts
(one entry per enumerated day). -/
theorem chartFold_dates (history : List Snapshot) (pairDayDatas : List DayData) :
    ∀ (ts : List Nat) (own : List (Nat × Ownership)) (acc : List ChartEntry),
      ((ts.foldl (chartDayStep history pairDayDatas) (own, acc)).2).map ChartEntry.date
        = acc.map ChartEntry.date ++ ts := by
  intro ts
  induction ts with
  | nil => intro own acc; simp
  | cons t ts ih =>
    intro own acc
    rw [List.foldl_cons, chartDayStep, ih]
    simp

theorem userLiquidityChart_dates (now startDateTimestamp : Nat)
    (history : List Snapshot) (pairDayDatas : List DayData) :
    (userLiquidityChart now startDateTimestamp history pairDayDatas).map ChartEntry.date
      = dayTimestampsOf now startDateTimestamp history := by
  unfold userLiquidityChart
  rw [chartFold_dates]
  simp

/-- C6: every entry emitted by the daily liquidity aggregator has
`date < floor(now / 86400) * 86400` — the still-accumulating current day
bucket is never included. -/
theorem userLiquidityChart_no_current_day (now startDateTimestamp : Nat)
    (history : List Snapshot) (pairDayDatas : List DayData) (e : ChartEntry)
    (he : e ∈ userLiquidityChart now startDateTimestamp history pairDayDatas) :
    e.date < now / 86400 * 86400 := by
  have hmem : e.date ∈ (userLiquidityChart now startDateTimestamp history
      pairDayDatas).map ChartEntry.date :=
    List.mem_map_of_mem ChartEntry.date he
  rw [userLiquidityChart_dates] at hmem
  simp only [dayTimestampsOf, List.mem_map, List.mem_range] at hmem
  obtain ⟨i, hi, hdate⟩ := hmem
  rw [← hdate]
  have hlt : startDayIndex startDateTimestamp history + i < now / 86400 := by omega
  exact Nat.mul_lt_mul_of_lt_of_le hlt (Nat.le_refl _) (by norm_num)

theorem ownLookup_nil (q : Nat) : ownLookup [] q = none := rfl

theorem ownLookup_cons (kv : Nat × Ownership) (m : List (Nat × Ownership)) (q : Nat) :
    ownLookup (kv :: m) q = if kv.1 = q then some kv.2 else ownLookup m q := by
  by_cases h : kv.1 = q
  · simp [ownLookup, List.find?_cons, h]
  · simp [ownLookup, List.find?_cons, h]

/-- Appending a fresh entry makes its key visible only if the key was
absent. -/
theorem ownLookup_append_single (m : List (Nat × Ownership)) (p : Nat) (o : Ownership) :
    ∀ q, ownLookup (m ++ [(p, o)]) q
      = match ownLookup m q with
        | some r => some r
        | none => if p = q then some o else none := by
  induction m with
  | nil =>
    intro q
    simp [ownLookup_nil, ownLookup_cons]
  | cons kv m ih =>
    intro q
    rw [List.cons_append, ownLookup_cons, ownLookup_cons, ih q]
    by_cases h : kv.1 = q <;> simp [h]

theorem ownLookup_append_self {m : List (Nat × Ownership)} {p : Nat} {o : Ownership}
    (h : ownLookup m p = none) : ownLookup (m ++ [(p, o)]) p = some o := by
  have happ := ownLookup_append_single m p o p
  rw [h] at happ
  simpa using happ

theorem ownLookup_append_other {m : List (Nat × Ownership)} {p : Nat} {o : Ownership}
    {q : Nat} (h : p ≠ q) : ownLookup (m ++ [(p, o)]) q = ownLookup m q := by
  have happ := ownLookup_append_single m p o q
  rw [happ]
  cases hm : ownLookup m q
  · simp [h]
  · rfl

/-- In-place overwrite: the written key's value is replaced when present;
other keys are unaffected. -/
theorem ownLookup_ownSet (m : List (Nat × Ownership)) (p : Nat) (o : Ownership) :
    ∀ q, ownLookup (ownSet m p o) q
      = if p = q then (ownLookup m q).map (fun _ => o) else ownLookup m q := by
  induction m with
  | nil =>
    intro q
    by_cases h : p = q <;> simp [ownSet, ownLookup_nil, h]
  | cons kv m ih =>
    intro q
    have hset : ownSet (kv :: m) p o
        = (if kv.1 = p then (kv.1, o) else kv) :: ownSet m p o := by
      simp [ownSet]
    rw [hset, ownLookup_cons, ownLookup_cons, ih q]
    by_cases h1 : kv.1 = p
    · by_cases h2 : p = q
      · simp [h1, h2]
      · have h3 : kv.1 ≠ q := by rw [h1]; exact h2
        simp [h1, h2, h3]
    · by_cases h2 : kv.1 = q
      · have h3 : ¬ p = q := by rw [← h2]; exact fun hq => h1 hq.symm
        have h4 : ¬ q = p := fun hq => h3 hq.symm
        simp [h1, h2, h3, h4]
      · simp [h1, h2]

theorem ownLookup_ownSet_self {m : List (Nat × Ownership)} {p : Nat} {o r : Ownership}
    (h : ownLookup m p = some r) : ownLookup (ownSet m p o) p = some o := by
  rw [ownLookup_ownSet, if_pos rfl, h]
  rfl

theorem ownLookup_ownSet_other {m : List (Nat × Ownership)} {p : Nat} {o : Ownership}
    {q : Nat} (h : p ≠ q) : ownLookup (ownSet m p o) q = ownLookup m q := by
  rw [ownLookup_ownSet, if_neg h]

/-- `updateOwnership` leaves every other pair's entry unchanged. -/
theorem updateOwnership_lookup_other (m : List (Nat × Ownership)) (s : Snapshot)
    (q : Nat) (h : s.pairId ≠ q) :
    ownLookup (updateOwnership m s) q = ownLookup m q := by
  unfold updateOwnership
  cases h1 : ownLookup m s.pairId with
  | none =>
    have hself : ownLookup (m ++ [(s.pairId, ⟨s.liquidityTokenBalance, s.timestamp⟩)])
        s.pairId = some ⟨s.liquidityTokenBalance, s.timestamp⟩ :=
      ownLookup_append_self h1
    simp only [h1, hself]
    rw [if_neg (lt_irrefl s.timestamp), ownLookup_append_other h]
  | some o =>
    simp only [h1]
    by_cases hts : o.timestamp < s.timestamp
    · rw [if_pos hts, ownLookup_ownSet_other h]
    · rw [if_neg hts]

/-- `updateOwnership` at the snapshot's own pair: absent or older entries are
overwritten with the snapshot's balance and timestamp; an entry at least as
recent is kept. -/
theorem updateOwnership_lookup_self (m : List (Nat × Ownership)) (s : Snapshot) :
    ownLookup (updateOwnership m s) s.pairId
      = match ownLookup m s.pairId with
        | none => some ⟨s.liquidityTokenBalance, s.timestamp⟩
        | some o =>
          if o.timestamp < s.timestamp then
            some ⟨s.liquidityTokenBalance, s.timestamp⟩
          else some o := by
  unfold updateOwnership
  cases h1 : ownLookup m s.pairId with
  | none =>
    have hself : ownLookup (m ++ [(s.pairId, ⟨s.liquidityTokenBalance, s.timestamp⟩)])
        s.pairId = some ⟨s.liquidityTokenBalance, s.timestamp⟩ :=
      ownLookup_append_self h1
    simp only [h1, hself]
    rw [if_neg (lt_irrefl s.timestamp)]
    exact hself
  | some o =>
    simp only [h1]
    by_cases hts : o.timestamp < s.timestamp
    · rw [if_pos hts, if_pos hts, ownLookup_ownSet_self h1]
    · rw [if_neg hts, if_neg hts, h1]

/-- Folding `updateOwnership` over snapshots that never mention pair `p`
leaves `p`'s entry untouched. -/
theorem foldOwnership_retains (l : List Snapshot) :
    ∀ (own : List (Nat × Ownership)) (p : Nat), (∀ s ∈ l, s.pairId ≠ p) →
      ownLookup (l.foldl updateOwnership own) p = ownLookup own p := by
  induction l with
  | nil => intro own p _; rfl
  | cons s l ih =>
    intro own p h
    rw [List.foldl_cons, ih (updateOwnership own s) p (fun s2 hs2 => h s2 (by simp [hs2])),
      updateOwnership_lookup_other own s p (h s (by simp))]

/-- Once pair `p` holds the strictly-latest snapshot's balance, folding the
remaining snapshots (all older for `p`, or the same snapshot again) keeps
it. -/
theorem foldOwnership_keeps (l : List Snapshot) :
    ∀ (own : List (Nat × Ownership)) (s : Snapshot),
      ownLookup own s.pairId = some ⟨s.liquidityTokenBalance, s.timestamp⟩ →
      (∀ s2 ∈ l, s2.pairId = s.pairId → s2 = s ∨ s2.timestamp < s.timestamp) →
      ownLookup (l.foldl updateOwnership own) s.pairId
        = some ⟨s.liquidityTokenBalance, s.timestamp⟩ := by
  induction l with
  | nil => intro own s h _; exact h
  | cons s2 l ih =>
    intro own s h hlatest
    rw [List.foldl_cons]
    refine ih (updateOwnership own s2) s ?_
      (fun s3 hs3 => hlatest s3 (by simp [hs3]))
    by_cases hpair : s2.pairId = s.pairId
    · rw [← hpair, updateOwnership_lookup_self, hpair]
      simp only [h]
      rcases hlatest s2 (by simp) hpair with heq | hlt
      · subst heq
        simp
      · rw [if_neg (by omega)]
    · rw [updateOwnership_lookup_other own s2 s.pairId hpair, h]

/-- If pair `p` is absent (or held with an older timestamp) and the bucket
contains a snapshot `s` for `p` with the strictly latest timestamp among the
bucket's snapshots for `p`, the fold ends with `s`'s balance and timestamp. -/
theorem foldOwnership_latest (l : List Snapshot) :
    ∀ (own : List (Nat × Ownership)) (s : Snapshot),
      (ownLookup own s.pairId = none
        ∨ ∃ o, ownLookup own s.pairId = some o ∧ o.timestamp < s.timestamp) →
      s ∈ l →
      (∀ s2 ∈ l, s2.pairId = s.pairId → s2 = s ∨ s2.timestamp < s.timestamp) →
      ownLookup (l.foldl updateOwnership own) s.pairId
        = some ⟨s.liquidityTokenBalance, s.timestamp⟩ := by
  induction l with
  | nil => intro own s _ hmem _; exact absurd hmem (List.not_mem_nil s)
  | cons s2 l ih =>
    intro own s hpre hmem hlatest
    rw [List.foldl_cons]
    by_cases heq : s2 = s
    · subst heq
      refine foldOwnership_keeps l (updateOwnership own s2) s2 ?_
        (fun s3 hs3 => hlatest s3 (by simp [hs3]))
      rw [updateOwnership_lookup_self]
      rcases hpre with h | ⟨o, h, hts⟩
      · simp only [h]
      · simp only [h]
        rw [if_pos hts]
    · have hmem2 : s ∈ l := by
        rcases List.mem_cons.mp hmem with h | h
        · exact absurd h.symm heq
        · exact h
      refine ih (updateOwnership own s2) s ?_ hmem2
        (fun s3 hs3 => hlatest s3 (by simp [hs3]))
      by_cases hpair : s2.pairId = s.pairId
      · have hlt : s2.timestamp < s.timestamp := by
          rcases hlatest s2 (by simp) hpair with h | h
          · exact absurd h heq
          · exact h
        rw [← hpair, updateOwnership_lookup_self, hpair]
        rcases hpre with h | ⟨o, h, hts⟩
        · simp only [h]
          exact Or.inr ⟨⟨s2.liquidityTokenBalance, s2.timestamp⟩, rfl, hlt⟩
        · simp only [h]
          by_cases hts2 : o.timestamp < s2.timestamp
          · rw [if_pos hts2]
            exact Or.inr ⟨⟨s2.liquidityTokenBalance, s2.timestamp⟩, rfl, hlt⟩
          · rw [if_neg hts2]
            exact Or.inr ⟨o, rfl, hts⟩
      · rw [updateOwnership_lookup_other own s2 s.pairId hpair]
        exact hpre

/-- When the scan seed is dated strictly before the bucket, the fold computes
a maximal-date record strictly before the bucket. -/
theorem mostRecentFold_below (dayTimestamp : Nat) (l : List DayData) :
    ∀ m : DayData, m.date < dayTimestamp →
      (l.foldl (mostRecentStep dayTimestamp) m).date < dayTimestamp
      ∧ (l.foldl (mostRecentStep dayTimestamp) m = m
          ∨ l.foldl (mostRecentStep dayTimestamp) m ∈ l)
      ∧ m.date ≤ (l.foldl (mostRecentStep dayTimestamp) m).date
      ∧ ∀ d ∈ l, d.date < dayTimestamp →
          d.date ≤ (l.foldl (mostRecentStep dayTimestamp) m).date := by
  induction l with
  | nil =>
    intro m hm
    exact ⟨hm, Or.inl rfl, Nat.le_refl _, fun d hd => absurd hd (List.not_mem_nil d)⟩
  | cons d l ih =>
    intro m hm
    rw [List.foldl_cons]
    by_cases hc : d.date < dayTimestamp ∧ d.date > m.date
    · have hstep : mostRecentStep dayTimestamp m d = d := if_pos hc
      rw [hstep]
      obtain ⟨g1, g2, g3, g4⟩ := ih d hc.1
      refine ⟨g1, ?_, by omega, ?_⟩
      · rcases g2 with h | h
        · exact Or.inr (by simp [h])
        · exact Or.inr (by simp [h])
      · intro d2 hd2 hd2lt
        rcases List.mem_cons.mp hd2 with h | h
        · subst h; omega
        · exact g4 d2 h hd2lt
    · have hstep : mostRecentStep dayTimestamp m d = m := if_neg hc
      rw [hstep]
      obtain ⟨g1, g2, g3, g4⟩ := ih m hm
      refine ⟨g1, ?_, g3, ?_⟩
      · rcases g2 with h | h
        · exact Or.inl h
        · exact Or.inr (by simp [h])
      · intro d2 hd2 hd2lt
        rcases List.mem_cons.mp hd2 with h | h
        · subst h
          have : ¬ d2.date > m.date := fun hgt => hc ⟨hd2lt, hgt⟩
          omega
        · exact g4 d2 h hd2lt

/-- When the scan seed is dated at or after the bucket, no record can ever
replace it: the fold returns the seed unchanged. -/
theorem mostRecentFold_at_or_after (dayTimestamp : Nat) (l : List DayData) :
    ∀ m : DayData, ¬ m.date < dayTimestamp →
      l.foldl (mostRecentStep dayTimestamp) m = m := by
  induction l with
  | nil => intro m _; rfl
  | cons d l ih =>
    intro m hm
    rw [List.foldl_cons]
    have hstep : mostRecentStep dayTimestamp m d = m :=
      if_neg (fun hc => hm (by omega))
    rw [hstep]
    exact ih m hm

/-- C4 (amended): a pool with no day-data records at all yields no record and
contributes `0` (no error).  When the pool's *first-listed* record is dated
strictly before the bucket, the scan returns a maximal-date record strictly
before the bucket (the claim's "most recent prior record").  But when the
first-listed record is dated at or after the bucket, the scan returns that
first record unchanged — the pool is then valued with a record dated at or
after the bucket instead of contributing `0`. -/
theorem mostRecentDayData_spec :
    (∀ dayTimestamp, mostRecentDayData [] dayTimestamp = none)
    ∧ (∀ (ownership : List (Nat × Ownership)) (t : ℚ),
        dailyUSDStep ownership t none = t)
    ∧ (∀ (first : DayData) (rest : List DayData) (dayTimestamp : Nat),
        first.date < dayTimestamp →
        ∃ d, mostRecentDayData (first :: rest) dayTimestamp = some d
          ∧ d ∈ first :: rest
          ∧ d.date < dayTimestamp
          ∧ ∀ d2 ∈ first :: rest, d2.date < dayTimestamp → d2.date ≤ d.date)
    ∧ (∀ (first : DayData) (rest : List DayData) (dayTimestamp : Nat),
        ¬ first.date < dayTimestamp →
        mostRecentDayData (first :: rest) dayTimestamp = some first) := by
  refine ⟨fun _ => rfl, fun _ _ => rfl, ?_, ?_⟩
  · intro first rest dayTimestamp hfirst
    obtain ⟨g1, g2, g3, g4⟩ := mostRecentFold_below dayTimestamp (first :: rest) first hfirst
    exact ⟨(first :: rest).foldl (mostRecentStep dayTimestamp) first, rfl,
      (by rcases g2 with h | h
          · rw [h]; exact List.mem_cons_self first rest
          · exact h), g1, g4⟩
  · intro first rest dayTimestamp hfirst
    rw [mostRecentDayData, mostRecentFold_at_or_after dayTimestamp (first :: rest) first hfirst]

/-- Witness for `mostRecentDayData_spec`: a single record dated at the bucket
start (not strictly before it) is returned as "most recent" anyway. -/
theorem mostRecentDayData_spec_witness :
    mostRecentDayData [⟨1, 86400, 100, 1000⟩] 86400 = some ⟨1, 86400, 100, 1000⟩ :=
  mostRecentDayData_spec.2.2.2 ⟨1, 86400, 100, 1000⟩ [] 86400 (by simp)

/-- The spec's concrete scenario: two same-day snapshots for pool 1
(balance 10 at `t = 100`, balance 15 at `t = 200`) and one day-data record
(`date = 0`, `totalSupply = 100`, `reserveUSD = 1000`). -/
def c5History : List Snapshot := [⟨100, 1, 10⟩, ⟨200, 1, 15⟩]

def c5DayData : List DayData := [⟨1, 0, 100, 1000⟩]

/-- Evaluation of the aggregator on the spec's concrete scenario, with window
start `50` (before `t = 100`) and `now` on day 2. -/
theorem c5Chart_eval :
    userLiquidityChart 172800 50 c5History c5DayData = [⟨0, 150⟩, ⟨86400, 150⟩] := by
  norm_num [userLiquidityChart, dayTimestampsOf, startDayIndex, sortByTimestamp,
    insertByTimestamp, chartDayStep, processDayOwnership, relevantOf, updateOwnership,
    ownLookup, ownSet, processDayUSD, mostRecentDayData, mostRecentStep, dailyUSDStep,
    c5History, c5DayData, List.range_succ, List.find?, List.filter]

/-- C5: within one day bucket the ownership map keeps, per pool, the balance
of the snapshot with the latest timestamp; a pool with no snapshot in the
bucket retains its previously known entry.  On the spec's concrete scenario
(window start 50, snapshots `{t=100, bal=10}` and `{t=200, bal=15}` for
pool 1, day-data `{date=0, totalSupply=100, reserveUSD=1000}`), the bucket
covering `t = 200` holds balance 15 and `valueUSD = (15/100)*1000 = 150`. -/
theorem ownership_latest_snapshot_wins :
    (∀ (history : List Snapshot) (own : List (Nat × Ownership)) (dayTimestamp p : Nat),
        (∀ s ∈ relevantOf history dayTimestamp, s.pairId ≠ p) →
        ownLookup (processDayOwnership history own dayTimestamp) p = ownLookup own p)
    ∧ (∀ (history : List Snapshot) (own : List (Nat × Ownership)) (dayTimestamp : Nat)
          (s : Snapshot),
        ownLookup own s.pairId = none →
        s ∈ relevantOf history dayTimestamp →
        (∀ s2 ∈ relevantOf history dayTimestamp, s2.pairId = s.pairId →
          s2 = s ∨ s2.timestamp < s.timestamp) →
        ownLookup (processDayOwnership history own dayTimestamp) s.pairId
          = some ⟨s.liquidityTokenBalance, s.timestamp⟩)
    ∧ processDayOwnership c5History [] 0 = [(1, ⟨15, 200⟩)]
    ∧ userLiquidityChart 172800 50 c5History c5DayData = [⟨0, 150⟩, ⟨86400, 150⟩] := by
  refine ⟨?_, ?_, ?_, c5Chart_eval⟩
  · intro history own dayTimestamp p h
    exact foldOwnership_retains (relevantOf history dayTimestamp) own p h
  · intro history own dayTimestamp s habsent hmem hlatest
    exact foldOwnership_latest (relevantOf history dayTimestamp) own s
      (Or.inl habsent) hmem hlatest
  · norm_num [processDayOwnership, relevantOf, updateOwnership, ownLookup, ownSet,
      c5History, List.find?, List.filter]

/-- Witness for `ownership_latest_snapshot_wins`: the latest-wins clause at
the concrete scenario's day-0 bucket. -/
theorem ownership_latest_snapshot_wins_witness :
    ownLookup (processDayOwnership c5History [] 0)
        (Snapshot.pairId ⟨200, 1, 15⟩) = some ⟨15, 200⟩ := by
  refine ownership_latest_snapshot_wins.2.1 c5History [] 0 ⟨200, 1, 15⟩ rfl
    (by norm_num [relevantOf, c5History, List.filter]) ?_
  intro s2 hs2 _
  have h : s2 = ⟨100, 1, 10⟩ ∨ s2 = ⟨200, 1, 15⟩ := by
    norm_num [relevantOf, c5History, List.filter] at hs2
    exact hs2
  rcases h with h | h
  · right
    rw [h]
    norm_num
  · left
    exact h

/-- Witness for `userLiquidityChart_no_current_day`: the first entry of the
concrete scenario's chart is dated before the current day bucket. -/
theorem userLiquidityChart_no_current_day_witness :
    (⟨0, 150⟩ : ChartEntry).date < 172800 / 86400 * 86400 :=
  userLiquidityChart_no_current_day 172800 50 c5History c5DayData ⟨0, 150⟩
    (by rw [c5Chart_eval]; exact List.mem_cons_self _ _)

/-- A single snapshot for pool 1 on day 0, and a single day-data record dated
on day 1 — no record is dated strictly before buckets 0 or 1. -/
def c4History : List Snapshot := [⟨100, 1, 10⟩]

def c4DayData : List DayData := [⟨1, 86400, 100, 1000⟩]

/-- C4 counterexample: on buckets 0 and 1 pool 1 has a known balance but no
day-data record dated strictly before the bucket; the claim requires those
buckets to contribute `0` USD, yet the aggregator values them at `100` USD
(using the day-1 record, dated at or after the bucket). -/
theorem dayData_after_bucket_used :
    (userLiquidityChart 259200 1 c4History c4DayData).map ChartEntry.valueUSD
      = [100, 100, 100]
    ∧ (100 : ℚ) ≠ 0 := by
  constructor
  · norm_num [userLiquidityChart, dayTimestampsOf, startDayIndex, sortByTimestamp,
      insertByTimestamp, chartDayStep, processDayOwnership, relevantOf, updateOwnership,
      ownLookup, ownSet, processDayUSD, mostRecentDayData, mostRecentStep, dailyUSDStep,
      c4History, c4DayData, List.range_succ, List.find?, List.filter]
  · norm_num

/-!
## Per-account cache reducer (`reducer`)

Each action spreads the previous state, the previous account entry
(`...state?.[account]`, `{}` when absent), and — for pair returns — the
previous per-pair mapping, overwriting exactly one sub-key:

    case UPDATE_TRANSACTIONS: {
      const { account, transactions } = payload
      return { ...state, [account]: { ...state?.[account], [TRANSACTIONS_KEY]: transactions } }
    }
    ...
    case UPDATE_USER_PAIR_RETURNS: {
      const { account, pairAddress, data } = payload
      return { ...state, [account]: { ...state?.[account],
        [USER_PAIR_RETURNS_KEY]: { ...state?.[account]?.[USER_PAIR_RETURNS_KEY], [pairAddress]: data } } }
    }

The unknown-action default throws, so only the five action types are
modelled.  Cached values are an arbitrary type `V`. -/

/-- One account's cache entry: the five sub-keys. -/
structure AccountCache (V : Type) where
  transactions : Option V
  positions : Option V
  miningPositions : Option V
  snapshots : Option V
  pairReturns : Nat → Option V

/-- `{}` — the spread of an absent account entry. -/
def emptyCache {V : Type} : AccountCache V :=
  ⟨none, none, none, none, fun _ => none⟩

/-- The whole cache: account → entry (absent accounts are `none`). -/
abbrev UserState (V : Type) := Nat → Option (AccountCache V)

/-- The five accepted action types with their payloads. -/
inductive UserAction (V : Type) where
  | updateTransactions (account : Nat) (transactions : V)
  | updatePositions (account : Nat) (positions : V)
  | updateMiningPositions (account : Nat) (miningPositions : V)
  | updateUserPositionHistory (account : Nat) (historyData : V)
  | updateUserPairReturns (account : Nat) (pairAddress : Nat) (data : V)

/-- The account addressed by an action's payload. -/
def UserAction.account {V : Type} : UserAction V → Nat
  | updateTransactions a _ => a
  | updatePositions a _ => a
  | updateMiningPositions a _ => a
  | updateUserPositionHistory a _ => a
  | updateUserPairReturns a _ _ => a

/-- The cache reducer. -/
def reducer {V : Type} (state : UserState V) : UserAction V → UserState V
  | .updateTransactions account transactions => fun a =>
    if a = account then
      some { (state account).getD emptyCache with transactions := some transactions }
    else state a
  | .updatePositions account positions => fun a =>
    if a = account then
      some { (state account).getD emptyCache with positions := some positions }
    else state a
  | .updateMiningPositions account miningPositions => fun a =>
    if a = account then
      some { (state account).getD emptyCache with miningPositions := some miningPositions }
    else state a
  | .updateUserPositionHistory account historyData => fun a =>
    if a = account then
      some { (state account).getD emptyCache with snapshots := some historyData }
    else state a
  | .updateUserPairReturns account pairAddress data => fun a =>
    if a = account then
      let prev := (state account).getD emptyCache
      some { prev with pairReturns :=
        fun q => if q = pairAddress then some data else prev.pairReturns q }
    else state a

/-- A cache sub-key (pair-returns sub-keys are per pair address). -/
inductive CacheKey where
  | transactionsKey
  | positionsKey
  | miningPositionsKey
  | snapshotsKey
  | pairReturnsKey (pairAddress : Nat)
deriving DecidableEq

/-- Reading one sub-key of one (possibly absent) account entry. -/
def lookupCacheKey {V : Type} (c : Option (AccountCache V)) : CacheKey → Option V
  | .transactionsKey => match c with | none => none | some cc => cc.transactions
  | .positionsKey => match c with | none => none | some cc => cc.positions
  | .miningPositionsKey => match c with | none => none | some cc => cc.miningPositions
  | .snapshotsKey => match c with | none => none | some cc => cc.snapshots
  | .pairReturnsKey p => match c with | none => none | some cc => cc.pairReturns p

/-- The single sub-key an action writes. -/
def touchedKey {V : Type} : UserAction V → CacheKey
  | .updateTransactions _ _ => .transactionsKey
  | .updatePositions _ _ => .positionsKey
  | .updateMiningPositions _ _ => .miningPositionsKey
  | .updateUserPositionHistory _ _ => .snapshotsKey
  | .updateUserPairReturns _ pairAddress _ => .pairReturnsKey pairAddress

/-- C10: for every accepted action, the reducer maps every account other than
the payload's account to exactly its previous value, and for the payload's
account every cache sub-key other than the action's target (including every
other pair address of the pair-returns mapping) reads exactly as before. -/
theorem reducer_frame {V : Type} (state : UserState V) (act : UserAction V) :
    (∀ a, a ≠ act.account → reducer state act a = state a)
    ∧ (∀ k, k ≠ touchedKey act →
        lookupCacheKey (reducer state act act.account) k
          = lookupCacheKey (state act.account) k) := by
  constructor
  · intro a ha
    cases act <;> simp only [UserAction.account] at ha <;> simp [reducer, ha]
  · intro k hk
    cases act with
    | updateTransactions account v =>
      cases k with
      | transactionsKey => exact absurd rfl hk
      | positionsKey =>
        cases hstate : state account <;>
          simp [reducer, UserAction.account, lookupCacheKey, emptyCache, hstate]
      | miningPositionsKey =>
        cases hstate : state account <;>
          simp [reducer, UserAction.account, lookupCacheKey, emptyCache, hstate]
      | snapshotsKey =>
        cases hstate : state account <;>
          simp [reducer, UserAction.account, lookupCacheKey, emptyCache, hstate]
      | pairReturnsKey q =>
        cases hstate : state account <;>
          simp [reducer, UserAction.account, lookupCacheKey, emptyCache, hstate]
    | updatePositions account v =>
      cases k with
      | positionsKey => exact absurd rfl hk
      | transactionsKey =>
        cases hstate : state account <;>
          simp [reducer, UserAction.account, lookupCacheKey, emptyCache, hstate]
      | miningPositionsKey =>
        cases hstate : state account <;>
          simp [reducer, UserAction.account, lookupCacheKey, emptyCache, hstate]
      | snapshotsKey =>
        cases hstate : state account <;>
          simp [reducer, UserAction.account, lookupCacheKey, emptyCache, hstate]
      | pairReturnsKey q =>
        cases hstate : state account <;>
          simp [reducer, UserAction.account, lookupCacheKey, emptyCache, hstate]
    | updateMiningPositions account v =>
      cases k with
      | miningPositionsKey => exact absurd rfl hk
      | transactionsKey =>
        cases hstate : state account <;>
          simp [reducer, UserAction.account, lookupCacheKey, emptyCache, hstate]
      | positionsKey =>
        cases hstate : state account <;>
          simp [reducer, UserAction.account, lookupCacheKey, emptyCache, hstate]
      | snapshotsKey =>
        cases hstate : state account <;>
          simp [reducer, UserAction.account, lookupCacheKey, emptyCache, hstate]
      | pairReturnsKey q =>
        cases hstate : state account <;>
          simp [reducer, UserAction.account, lookupCacheKey, emptyCache, hstate]
    | updateUserPositionHistory account v =>
      cases k with
      | snapshotsKey => exact absurd rfl hk
      | transactionsKey =>
        cases hstate : state account <;>
          simp [reducer, UserAction.account, lookupCacheKey, emptyCache, hstate]
      | positionsKey =>
        cases hstate : state account <;>
          simp [reducer, UserAction.account, lookupCacheKey, emptyCache, hstate]
      | miningPositionsKey =>
        cases hstate : state account <;>
          simp [reducer, UserAction.account, lookupCacheKey, emptyCache, hstate]
      | pairReturnsKey q =>
        cases hstate : state account <;>
          simp [reducer, UserAction.account, lookupCacheKey, emptyCache, hstate]
    | updateUserPairReturns account pairAddress v =>
      cases k with
      | transactionsKey =>
        cases hstate : state account <;>
          simp [reducer, UserAction.account, lookupCacheKey, emptyCache, hstate]
      | positionsKey =>
        cases hstate : state account <;>
          simp [reducer, UserAction.account, lookupCacheKey, emptyCache, hstate]
      | miningPositionsKey =>
        cases hstate : state account <;>
          simp [reducer, UserAction.account, lookupCacheKey, emptyCache, hstate]
      | snapshotsKey =>
        cases hstate : state account <;>
          simp [reducer, UserAction.account, lookupCacheKey, emptyCache, hstate]
      | pairReturnsKey q =>
        have hqp : q ≠ pairAddress := by
          intro h
          exact hk (by rw [h]; rfl)
        cases hstate : state account <;>
          simp [reducer, UserAction.account, lookupCacheKey, emptyCache, hstate, hqp]

/-- Witness for `reducer_frame`: updating account 0's transactions leaves
account 1 untouched and leaves account 0's positions key unread-changed, on
the empty state. -/
theorem reducer_frame_witness :
    reducer (fun _ => (none : Option (AccountCache Nat)))
        (UserAction.updateTransactions 0 7) 1
      = (fun _ => (none : Option (AccountCache Nat))) 1
    ∧ lookupCacheKey
        (reducer (fun _ => (none : Option (AccountCache Nat)))
          (UserAction.updateTransactions 0 7)
          (UserAction.account (UserAction.updateTransactions 0 7)))
        CacheKey.positionsKey
      = lookupCacheKey
          ((fun _ => (none : Option (AccountCache Nat)))
            (UserAction.account (UserAction.updateTransactions 0 7)))
          CacheKey.positionsKey :=
  ⟨(reducer_frame (fun _ => none) (UserAction.updateTransactions 0 7)).1 1 (by decide),
   (reducer_frame (fun _ => none) (UserAction.updateTransactions 0 7)).2
     CacheKey.positionsKey (by decide)⟩
